import Mathlib

/-!
Verification of the abydos q-gram tokenizer and token-distance formulas.

Sources embedded here:
* `abydos/tokenizer/_q_grams.py` — the `QGrams` class (`__init__` and
  `tokenize`), embedded faithfully as a state record plus state-passing
  functions.
* `abydos/distance/_weighted_jaccard.py`, `_kuhns_viii.py`,
  `_quantitative_jaccard.py`, `_generalized_fleiss.py` — the `sim` methods.
* The shared base classes `_Tokenizer` and `_TokenDistance` and the mean
  registry of `abydos/stats/_mean.py` are not part of the source tree under
  verification; the few members the claims need are modelled from the spec
  and marked as such in their doc comments.

Python strings are `List Char`; Python `Counter` multisets are
`Multiset (List Char)`; Python `int` is `Int` (or `Nat` where the source
value is provably non-negative); float division that can raise
`ZeroDivisionError` is `Option Rat`, `none` on a zero denominator.
-/

namespace Abydos

/-- A token: a Python string, as a list of characters. -/
abbrev Tok := List Char

/-- The `scaler` argument of `_Tokenizer.__init__`: `None`, the string
`'set'`, or a callable applied to each count. -/
inductive Scaler where
  | none : Scaler
  | set : Scaler
  | custom (f : Nat → Rat) : Scaler

/-- The state of a `QGrams` instance: the configuration saved by
`__init__` (`qval`, `start_stop`, `skip`, `scaler`) plus the mutable
fields `_string`, `_ordered_tokens` and `_string_ss`.

`qval` and `skip` are kept in their normalized (tuple) form, the form
`tokenize` puts them in on first call; a single integer argument becomes a
one-element list.  `skip` entries are `Nat`: the source allows any int,
but a negative skip makes the slice step non-positive (a `ValueError` in
Python), outside every behaviour specified here. -/
structure QGrams where
  qval : List Int
  start_stop : List Char
  skip : List Nat
  scaler : Scaler
  _string : List Char
  _ordered_tokens : List Tok
  _string_ss : List Char

/-- Python `string[i : i + q*step : step]` for `step ≥ 1`: the characters
at indices `i, i+step, i+2*step, …`, at most `q` of them, stopping at the
end of the string. -/
def stridedTake (s : List Char) (i step : Nat) : Nat → List Char
  | 0 => []
  | q + 1 =>
    match s[i]? with
    | Option.none => []
    | Option.some ch => ch :: stridedTake s (i + step) step q

/-- The padded string of `QGrams.tokenize`: `(q-1)` copies of the first
`start_stop` character in front, `(q-1)` copies of its last character
behind.  Only used when `start_stop` is non-empty, so the defaults of
`headD`/`getLastD` are never read. -/
def paddedString (ss s : List Char) (q : Nat) : List Char :=
  List.replicate (q - 1) (ss.headD ' ') ++ s ++ List.replicate (q - 1) (ss.getLastD ' ')

/-- One iteration of the nested loop body of `QGrams.tokenize` for a pair
`(qval_i, skip_i)`: skip if the stored string is shorter than `qval_i` or
`qval_i < 1`; otherwise pad, remember the longest padded string in
`_string_ss`, and append the q-grams to `_ordered_tokens`. -/
def QGrams.tokenizeStep (st : QGrams) (qval_i : Int) (skip_i : Nat) : QGrams :=
  if (st._string.length : Int) < qval_i ∨ qval_i < 1 then st
  else
    let q : Nat := qval_i.toNat
    let string : List Char :=
      if st.start_stop ≠ [] then paddedString st.start_stop st._string q
      else st._string
    let st1 : QGrams :=
      if string.length > st._string_ss.length then { st with _string_ss := string }
      else st
    let step : Nat := skip_i + 1
    { st1 with
      _ordered_tokens :=
        st1._ordered_tokens ++
          (List.range (string.length - (q - 1))).map fun i => stridedTake string i step q }

/-- The nested `for qval_i in self.qval: for skip_i in self.skip:` loop. -/
def QGrams.runPairs (st : QGrams) (qs : List Int) (sks : List Nat) : QGrams :=
  qs.foldl (fun acc q => sks.foldl (fun a sk => a.tokenizeStep q sk) acc) st

/-- `QGrams.tokenize`: store the string, reset the ordered token list, and
run the loop over every `(qval_i, skip_i)` pair.  (The final
`super().tokenize()` call only rebuilds the counter, which is modelled as
the derived view `tokensMultiset` / `get_counter` below.) -/
def QGrams.tokenize (st : QGrams) (string : List Char) : QGrams :=
  let st0 : QGrams := { st with _string := string, _ordered_tokens := [] }
  st0.runPairs st0.qval st0.skip

/-- `QGrams.__init__` with a single-integer `qval` and `skip`: raises
`ValueError` exactly when `qval == 0`; stores the parameters, forcing
`start_stop` empty when `qval == 1`; `_string` starts out as the empty
string of the base class, and `_string_ss` is initialized to it. -/
def QGrams.initState (qval : Int) (start_stop : List Char) (skip : Nat)
    (scaler : Scaler) : QGrams :=
  { qval := [qval]
    start_stop := if qval = 1 then [] else start_stop
    skip := [skip]
    scaler := scaler
    _string := []
    _ordered_tokens := []
    _string_ss := [] }

/-- `QGrams(qval, start_stop, skip, scaler)` as a fallible constructor. -/
def QGrams.init (qval : Int) (start_stop : List Char) (skip : Nat)
    (scaler : Scaler) : Except String QGrams :=
  if qval = 0 then Except.error "Use WhitespaceTokenizer instead of qval=0."
  else Except.ok (QGrams.initState qval start_stop skip scaler)

/-- The default configuration `QGrams()`: `qval=2`, `start_stop='$#'`,
`skip=0`, `scaler=None`. -/
def QGrams.mkDefault : QGrams :=
  QGrams.initState 2 ['$', '#'] 0 Scaler.none

/-- Modelled from the spec: the base class `_Tokenizer` (not in the source
tree) builds the token multiset by counting the ordered token sequence
(spec 4.1 step 7: "Build the multiset by counting the ordered sequence").
The unscaled counter is the multiset of the ordered tokens. -/
def QGrams.tokensMultiset (st : QGrams) : Multiset Tok :=
  (st._ordered_tokens : Multiset Tok)

/-- Modelled from the spec: the per-count scaling of `_Tokenizer`
(spec 4.1 step 7: "`None`: no change; `'set'`: clamp every positive count
to 1; callable: apply element-wise"). -/
def scalerApply : Scaler → Nat → Rat
  | Scaler.none, n => (n : Rat)
  | Scaler.set, n => if 0 < n then 1 else 0
  | Scaler.custom f, n => f n

/-- Modelled from the spec: `_Tokenizer.get_counter` as a count function,
the scaler applied to each count (absent tokens have count 0). -/
def QGrams.get_counter (st : QGrams) (tok : Tok) : Rat :=
  scalerApply st.scaler (st.tokensMultiset.count tok)

/-! ## The cardinality engine (`_TokenDistance`, modelled from the spec)

The base class `_TokenDistance` is not in the source tree; the crisp
accessors are modelled from the spec's table (spec 4.2):
`a = Σ over tokens of min(count in src, count in tar)`,
`b = Σ of (count in src − count in tar) where positive`, symmetrically `c`,
`d = population_card() − a − b − c`, and the population, with no alphabet
configured, is inferred from the union of the observed tokens
(spec 3 and 6). -/

/-- Modelled from the spec: the token multiset a `sim(src, tar)` call with
the default tokenizer derives from one input string — `QGrams()` applied
to the string. -/
def defaultTokenMultiset (s : List Char) : Multiset Tok :=
  (QGrams.mkDefault.tokenize s).tokensMultiset

/-- Modelled from the spec: `_TokenDistance.intersection_card` (crisp),
`a = Σ over tokens of min(count in src, count in tar)`. -/
def intersection_card (src tar : Multiset Tok) : Nat :=
  ∑ tok ∈ (src + tar).toFinset, min (src.count tok) (tar.count tok)

/-- Modelled from the spec: `_TokenDistance.src_only_card` (crisp),
`b = Σ of (count in src − count in tar) where positive` (truncated
subtraction on `Nat` is exactly the positive part). -/
def src_only_card (src tar : Multiset Tok) : Nat :=
  ∑ tok ∈ (src + tar).toFinset, (src.count tok - tar.count tok)

/-- Modelled from the spec: `_TokenDistance.tar_only_card` (crisp),
`c = Σ of (count in tar − count in src) where positive`. -/
def tar_only_card (src tar : Multiset Tok) : Nat :=
  ∑ tok ∈ (src + tar).toFinset, (tar.count tok - src.count tok)

/-- Modelled from the spec: `_TokenDistance.population_card` with no
alphabet configured — the population is inferred from the union of the
observed tokens (spec 6: "omitted (triggering inference from the union of
the two input token sets)"). -/
def population_card (src tar : Multiset Tok) : Nat :=
  Multiset.card (src ∪ tar)

/-- Modelled from the spec: `_TokenDistance.total_complement_card`,
`d = population_card() − a − b − c` (in `Rat`, as the formulas consume
it). -/
def total_complement_card (src tar : Multiset Tok) : Rat :=
  (population_card src tar : Rat) - intersection_card src tar -
    src_only_card src tar - tar_only_card src tar

/-! ## The similarity formulas (from `src/abydos/distance/`)

Each `sim` is embedded as a function of the two input strings under the
default `QGrams()` tokenizer and crisp intersection.  A Python
`ZeroDivisionError` is `Option.none`. -/

/-- `WeightedJaccard.sim` (`_weighted_jaccard.py` lines 135–141):
`w·a / (w·a + b + c)` with no guard on the denominator. -/
def weightedJaccard_sim (weight : Rat) (src tar : List Char) : Option Rat :=
  let s := defaultTokenMultiset src
  let t := defaultTokenMultiset tar
  let a : Rat := intersection_card s t
  let b : Rat := src_only_card s t
  let c : Rat := tar_only_card s t
  if weight * a + b + c = 0 then Option.none
  else Option.some (weight * a / (weight * a + b + c))

/-- Plain Jaccard similarity `a / (a + b + c)`, written from the spec's
words ("plain Jaccard similarity for all inputs") to compare
`weightedJaccard_sim` with weight 1 against. -/
def jaccard_sim (src tar : List Char) : Option Rat :=
  let s := defaultTokenMultiset src
  let t := defaultTokenMultiset tar
  let a : Rat := intersection_card s t
  let b : Rat := src_only_card s t
  let c : Rat := tar_only_card s t
  if a + b + c = 0 then Option.none
  else Option.some (a / (a + b + c))

/-- `KuhnsVIII.sim` (`_kuhns_viii.py` lines 157–166):
`delta_ab = a − (2a+b+c)/n`, result `delta_ab / (a + (b+c)/2)`, with no
guard on either denominator (`n = 0` raises first). -/
def kuhnsVIII_sim (src tar : List Char) : Option Rat :=
  let s := defaultTokenMultiset src
  let t := defaultTokenMultiset tar
  let a : Rat := intersection_card s t
  let b : Rat := src_only_card s t
  let c : Rat := tar_only_card s t
  let n : Rat := population_card s t
  if n = 0 then Option.none
  else
    let delta_ab : Rat := a - (2 * a + b + c) / n
    if a + (1 / 2) * (b + c) = 0 then Option.none
    else Option.some (delta_ab / (a + (1 / 2) * (b + c)))

/-- `QuantitativeJaccard.sim` (`_quantitative_jaccard.py` lines 108–126):
over the keys of `self._total()` (the sum of the two counters, modelled
from the spec's tokenizer capability "union/sum"), compute
`product = Σ src_i·tar_i` and return
`product / (Σ src_i² + Σ tar_i² − product)`, with no guard on the
denominator. -/
def quantitativeJaccard_sim (src tar : List Char) : Option Rat :=
  let s := defaultTokenMultiset src
  let t := defaultTokenMultiset tar
  let alphabet := (s + t).toFinset
  let product : Int := ∑ tok ∈ alphabet, (s.count tok : Int) * t.count tok
  let den : Int :=
    (∑ tok ∈ alphabet, (s.count tok : Int) * s.count tok) +
      (∑ tok ∈ alphabet, (t.count tok : Int) * t.count tok) - product
  if den = 0 then Option.none
  else Option.some ((product : Rat) / (den : Rat))

/-- Modelled from the spec: the arithmetic mean `amean` of
`abydos/stats/_mean.py` (not in the source tree) — the sum of the values
divided by how many there are. -/
def amean (l : List Rat) : Rat :=
  l.sum / (l.length : Rat)

/-- `GeneralizedFleiss.sim` (`_generalized_fleiss.py` lines 243–270):
compute `a, b, c, d, n`, optionally divide by `n` (`proportional`), build
the marginal products for `marginals` `'b'`, `'c'`, or the default branch
`[(a+b)·(c+d), (a+c)·(c+d)]`, take their mean, and return
`(a·d − b·c) / mean`, with no guard on either division. -/
def generalizedFleiss_sim (meanF : List Rat → Rat) (marginals : List Char)
    (proportional : Bool) (src tar : List Char) : Option Rat :=
  let s := defaultTokenMultiset src
  let t := defaultTokenMultiset tar
  let a0 : Rat := intersection_card s t
  let b0 : Rat := src_only_card s t
  let c0 : Rat := tar_only_card s t
  let d0 : Rat := total_complement_card s t
  let n : Rat := population_card s t
  if proportional ∧ n = 0 then Option.none
  else
    let a := if proportional then a0 / n else a0
    let b := if proportional then b0 / n else b0
    let c := if proportional then c0 / n else c0
    let d := if proportional then d0 / n else d0
    let mps : List Rat :=
      if marginals = "b".data then [(a + b) * (a + c), (c + d) * (b + d)]
      else if marginals = "c".data then [(a + b) * (b + d), (a + c) * (c + d)]
      else [(a + b) * (c + d), (a + c) * (c + d)]
    let mean_value := meanF mps
    if mean_value = 0 then Option.none
    else Option.some ((a * d - b * c) / mean_value)

/-- `GeneralizedFleiss()` with every default: `mean_func='arithmetic'`,
`marginals='a'`, `proportional=False`. -/
def generalizedFleissDefault_sim (src tar : List Char) : Option Rat :=
  generalizedFleiss_sim amean "a".data false src tar

/-! ## Structural lemmas about the tokenize loop -/

/-- The padded string a loop iteration works on, as a function of the
configuration and the input. -/
def paddedOf (ss s : List Char) (qval_i : Int) : List Char :=
  if ss ≠ [] then paddedString ss s qval_i.toNat else s

/-- The tokens one `(qval_i, skip_i)` iteration appends, as a function of
`start_stop`, the stored string, and the pair. -/
def stepTokens (ss s : List Char) (qval_i : Int) (skip_i : Nat) : List Tok :=
  if (s.length : Int) < qval_i ∨ qval_i < 1 then []
  else
    (List.range ((paddedOf ss s qval_i).length - (qval_i.toNat - 1))).map fun i =>
      stridedTake (paddedOf ss s qval_i) i (skip_i + 1) qval_i.toNat

theorem tokenizeStep_fields (st : QGrams) (q : Int) (sk : Nat) :
    (st.tokenizeStep q sk).qval = st.qval ∧
      (st.tokenizeStep q sk).skip = st.skip ∧
      (st.tokenizeStep q sk).start_stop = st.start_stop ∧
      (st.tokenizeStep q sk).scaler = st.scaler ∧
      (st.tokenizeStep q sk)._string = st._string := by
  simp only [QGrams.tokenizeStep]
  split_ifs <;> exact ⟨rfl, rfl, rfl, rfl, rfl⟩

theorem tokenizeStep_tokens (st : QGrams) (q : Int) (sk : Nat) :
    (st.tokenizeStep q sk)._ordered_tokens =
      st._ordered_tokens ++ stepTokens st.start_stop st._string q sk := by
  simp only [QGrams.tokenizeStep, stepTokens, paddedOf]
  split_ifs <;> simp

theorem foldSkip_spec (q : Int) (sks : List Nat) (st : QGrams) :
    (sks.foldl (fun a sk => a.tokenizeStep q sk) st).qval = st.qval ∧
      (sks.foldl (fun a sk => a.tokenizeStep q sk) st).skip = st.skip ∧
      (sks.foldl (fun a sk => a.tokenizeStep q sk) st).start_stop = st.start_stop ∧
      (sks.foldl (fun a sk => a.tokenizeStep q sk) st).scaler = st.scaler ∧
      (sks.foldl (fun a sk => a.tokenizeStep q sk) st)._string = st._string ∧
      (sks.foldl (fun a sk => a.tokenizeStep q sk) st)._ordered_tokens =
        st._ordered_tokens ++
          (sks.map fun sk => stepTokens st.start_stop st._string q sk).flatten := by
  induction sks generalizing st with
  | nil => simp
  | cons sk sks ih =>
    simp only [List.foldl_cons, List.map_cons, List.flatten_cons]
    obtain ⟨h1, h2, h3, h4, h5, h6⟩ := ih (st.tokenizeStep q sk)
    obtain ⟨f1, f2, f3, f4, f5⟩ := tokenizeStep_fields st q sk
    refine ⟨h1.trans f1, h2.trans f2, h3.trans f3, h4.trans f4, h5.trans f5, ?_⟩
    rw [h6, tokenizeStep_tokens, f3, f5, List.append_assoc]

theorem runPairs_spec (qs : List Int) (sks : List Nat) (st : QGrams) :
    (st.runPairs qs sks).qval = st.qval ∧
      (st.runPairs qs sks).skip = st.skip ∧
      (st.runPairs qs sks).start_stop = st.start_stop ∧
      (st.runPairs qs sks).scaler = st.scaler ∧
      (st.runPairs qs sks)._string = st._string ∧
      (st.runPairs qs sks)._ordered_tokens =
        st._ordered_tokens ++
          (qs.map fun q =>
            (sks.map fun sk => stepTokens st.start_stop st._string q sk).flatten).flatten := by
  induction qs generalizing st with
  | nil => simp [QGrams.runPairs]
  | cons q qs ih =>
    simp only [QGrams.runPairs, List.foldl_cons, List.map_cons, List.flatten_cons]
    set mid := sks.foldl (fun a sk => a.tokenizeStep q sk) st with hmid
    obtain ⟨g1, g2, g3, g4, g5, g6⟩ := foldSkip_spec q sks st
    obtain ⟨h1, h2, h3, h4, h5, h6⟩ := ih mid
    refine ⟨h1.trans g1, h2.trans g2, h3.trans g3, h4.trans g4, h5.trans g5, ?_⟩
    simp only [QGrams.runPairs] at h6
    rw [h6, g6, g3, g5, List.append_assoc]

/-- Every field of the result of `tokenize` other than `_string_ss`,
purely in terms of the configuration and the input string. -/
theorem tokenize_spec (st : QGrams) (s : List Char) :
    (st.tokenize s).qval = st.qval ∧
      (st.tokenize s).skip = st.skip ∧
      (st.tokenize s).start_stop = st.start_stop ∧
      (st.tokenize s).scaler = st.scaler ∧
      (st.tokenize s)._string = s ∧
      (st.tokenize s)._ordered_tokens =
        (st.qval.map fun q =>
          (st.skip.map fun sk => stepTokens st.start_stop s q sk).flatten).flatten := by
  unfold QGrams.tokenize
  obtain ⟨h1, h2, h3, h4, h5, h6⟩ :=
    runPairs_spec st.qval st.skip { st with _string := s, _ordered_tokens := [] }
  exact ⟨h1, h2, h3, h4, h5, by simpa using h6⟩

/-- An iteration on an input shorter than `qval_i` (or with `qval_i < 1`)
contributes no tokens. -/
theorem stepTokens_of_short (ss s : List Char) (q : Int) (sk : Nat)
    (h : (s.length : Int) < q ∨ q < 1) : stepTokens ss s q sk = [] := by
  unfold stepTokens
  exact if_pos h

/-- `stridedTake` returns exactly `q` characters whenever the last strided
index stays inside the string. -/
theorem stridedTake_length (s : List Char) (step : Nat) :
    ∀ (q i : Nat), i + (q - 1) * step < s.length →
      (stridedTake s i step q).length = q := by
  intro q
  induction q with
  | zero => intro i _; rfl
  | succ q ih =>
    intro i h
    have hq : (q + 1 - 1) * step = q * step := by simp
    rw [hq] at h
    have hi : i < s.length := by
      have : i ≤ i + q * step := Nat.le_add_right _ _
      omega
    unfold stridedTake
    rw [List.getElem?_eq_getElem hi]
    simp only [List.length_cons]
    cases q with
    | zero => rfl
    | succ q' =>
      rw [ih (i + step)]
      have : (q' + 1) * step = q' * step + step := Nat.succ_mul _ _
      simp only [Nat.succ_sub_one]
      omega

/-- Counting the occurrences of a multiset over any finset containing its
support gives its cardinality. -/
theorem sum_count_eq_card (t : Multiset Tok) (A : Finset Tok)
    (h : t.toFinset ⊆ A) : ∑ tok ∈ A, t.count tok = Multiset.card t := by
  rw [← Multiset.toFinset_sum_count_eq t]
  refine (Finset.sum_subset h fun x _ hx => ?_).symm
  exact Multiset.count_eq_zero.mpr fun hmem => hx (Multiset.mem_toFinset.mpr hmem)

/-! ## The claims -/

/-- C1: with the default configuration (`qval=2`, `start_stop='$#'`,
`skip=0`, no scaler), `QGrams().tokenize('AATTATAT')` produces exactly the
multiset `{AT: 3, TA: 2, $A: 1, AA: 1, TT: 1, T#: 1}`. -/
theorem qgrams_default_tokenize_AATTATAT :
    (QGrams.mkDefault.tokenize "AATTATAT".data).tokensMultiset =
      (["AT".data, "AT".data, "AT".data, "TA".data, "TA".data,
        "$A".data, "AA".data, "TT".data, "T#".data] : List Tok) := by
  decide

/-- C2, counterexample: with `qval=2`, default `start_stop`, and `skip=1`
on the input `'ab'` (which is not shorter than `q`), the generated tokens
are `['$b', 'a#', 'b']` — the last one has only 1 character, not `q = 2`:
the strided slice is truncated at the end of the padded string. -/
theorem qgram_skip_truncates_final_token :
    (((QGrams.initState 2 ['$', '#'] 1 Scaler.none).tokenize
        "ab".data)._ordered_tokens = ["$b".data, "a#".data, "b".data]) ∧
      ¬ (∀ tok ∈ ((QGrams.initState 2 ['$', '#'] 1 Scaler.none).tokenize
          "ab".data)._ordered_tokens, tok.length = 2) := by
  decide

/-- C2 (amended): for every configuration holding a single `q_i ≥ 1` and
`skip_i ≥ 0`, and every input at least `q_i` long, the tokenizer generates
one token per start index `i` from `0` to `len(padded) − q_i` inclusive,
each token being the strided slice of the padded string at stride
`skip_i + 1` starting at `i`; such a slice has exactly `q_i` characters
whenever its last strided index `i + (q_i − 1)·(skip_i + 1)` stays inside
the padded string — in particular, with `skip_i = 0` every generated token
has exactly `q_i` characters.  (As originally stated the exact-length part
fails: with a positive skip the slice is truncated at the end of the
string.) -/
theorem qgram_token_positions_and_lengths (st : QGrams) (s : List Char)
    (q : Int) (sk : Nat) (hq : st.qval = [q]) (hsk : st.skip = [sk])
    (h1 : 1 ≤ q) (h2 : q ≤ (s.length : Int)) :
    (st.tokenize s)._ordered_tokens =
      (List.range ((paddedOf st.start_stop s q).length - (q.toNat - 1))).map
        (fun i => stridedTake (paddedOf st.start_stop s q) i (sk + 1) q.toNat) ∧
      (∀ i, i + (q.toNat - 1) * (sk + 1) < (paddedOf st.start_stop s q).length →
        (stridedTake (paddedOf st.start_stop s q) i (sk + 1) q.toNat).length = q.toNat) ∧
      (sk = 0 → ∀ tok ∈ (st.tokenize s)._ordered_tokens, tok.length = q.toNat) := by
  have hguard : ¬ ((s.length : Int) < q ∨ q < 1) := by omega
  have htok : (st.tokenize s)._ordered_tokens = stepTokens st.start_stop s q sk := by
    obtain ⟨-, -, -, -, -, h6⟩ := tokenize_spec st s
    rw [h6, hq, hsk]
    simp
  have hstep : stepTokens st.start_stop s q sk =
      (List.range ((paddedOf st.start_stop s q).length - (q.toNat - 1))).map
        (fun i => stridedTake (paddedOf st.start_stop s q) i (sk + 1) q.toNat) := by
    unfold stepTokens
    rw [if_neg hguard]
  refine ⟨htok.trans hstep, fun i hi => stridedTake_length _ _ _ _ hi, ?_⟩
  rintro rfl tok htokmem
  rw [htok, hstep] at htokmem
  simp only [List.mem_map, List.mem_range] at htokmem
  obtain ⟨i, hi, rfl⟩ := htokmem
  apply stridedTake_length
  simp only [Nat.zero_add, mul_one]
  omega

theorem qgram_token_positions_and_lengths_witness :
    ((QGrams.initState 2 ['$', '#'] 1 Scaler.none).qval = [2] ∧
        (QGrams.initState 2 ['$', '#'] 1 Scaler.none).skip = [1] ∧
        (1 : Int) ≤ 2 ∧ (2 : Int) ≤ ("ab".data.length : Int)) ∧
      (((QGrams.initState 2 ['$', '#'] 1 Scaler.none).tokenize "ab".data)._ordered_tokens =
        (List.range (((paddedOf (QGrams.initState 2 ['$', '#'] 1 Scaler.none).start_stop
            "ab".data 2).length - ((2 : Int).toNat - 1)))).map
          (fun i => stridedTake (paddedOf (QGrams.initState 2 ['$', '#'] 1 Scaler.none).start_stop
            "ab".data 2) i (1 + 1) (2 : Int).toNat) ∧
        (∀ i, i + ((2 : Int).toNat - 1) * (1 + 1) <
            (paddedOf (QGrams.initState 2 ['$', '#'] 1 Scaler.none).start_stop "ab".data 2).length →
          (stridedTake (paddedOf (QGrams.initState 2 ['$', '#'] 1 Scaler.none).start_stop
            "ab".data 2) i (1 + 1) (2 : Int).toNat).length = (2 : Int).toNat) ∧
        ((1 : Nat) = 0 → ∀ tok ∈ ((QGrams.initState 2 ['$', '#'] 1 Scaler.none).tokenize
            "ab".data)._ordered_tokens, tok.length = (2 : Int).toNat)) :=
  ⟨⟨by decide, by decide, by decide, by decide⟩,
    qgram_token_positions_and_lengths (QGrams.initState 2 ['$', '#'] 1 Scaler.none)
      "ab".data 2 1 (by decide) (by decide) (by decide) (by decide)⟩

/-- C3, counterexample: `QGrams().tokenize('')` does not produce the
padding-derived gram `'$#'` — the loop skips any input shorter than
`qval_i`, so the result is the empty multiset, not `{'$#': 1}`. -/
theorem tokenize_empty_not_padding_gram :
    (QGrams.mkDefault.tokenize "".data).tokensMultiset ≠ ({"$#".data} : Multiset Tok) := by
  decide

/-- C3 (amended): tokenizing the empty string yields no tokens at all
under every configuration — an input shorter than `q_i` is skipped before
any padding is applied, so no padding-derived grams are ever produced from
an empty input. -/
theorem tokenize_empty_is_empty (st : QGrams) :
    (st.tokenize [])._ordered_tokens = [] ∧ (st.tokenize []).tokensMultiset = 0 := by
  have hnil : ∀ (q : Int) (sk : Nat), stepTokens st.start_stop ([] : List Char) q sk = [] := by
    intro q sk
    refine stepTokens_of_short _ _ _ _ ?_
    simp only [List.length_nil, Nat.cast_zero]
    omega
  have h : (st.tokenize [])._ordered_tokens = [] := by
    obtain ⟨-, -, -, -, -, h6⟩ := tokenize_spec st []
    rw [h6]
    simp [hnil]
  exact ⟨h, by simp [QGrams.tokensMultiset, h]⟩

/-- C4, counterexample: `QGrams(qval=-1)` does not raise — the constructor
only rejects `qval == 0` — and the negative length then silently yields an
empty token list. -/
theorem negative_qval_does_not_raise :
    QGrams.init (-1) ['$', '#'] 0 Scaler.none =
        Except.ok (QGrams.initState (-1) ['$', '#'] 0 Scaler.none) ∧
      ((QGrams.initState (-1) ['$', '#'] 0 Scaler.none).tokenize
        "ab".data)._ordered_tokens = [] := by
  exact ⟨rfl, by decide⟩

/-- C4 (amended): configuring a `QGrams` tokenizer fails fast with a
`ValueError` exactly for `q = 0`; a negative `q` is accepted and silently
produces an empty token list on every input (the loop skips `q_i < 1`). -/
theorem qval_nonpositive_behaviour (q : Int) (ss : List Char) (sk : Nat)
    (sc : Scaler) (s : List Char) (hq : q ≤ 0) :
    (q = 0 → QGrams.init q ss sk sc =
        Except.error "Use WhitespaceTokenizer instead of qval=0.") ∧
      (q < 0 → QGrams.init q ss sk sc = Except.ok (QGrams.initState q ss sk sc) ∧
        ((QGrams.initState q ss sk sc).tokenize s)._ordered_tokens = []) := by
  constructor
  · rintro rfl
    simp [QGrams.init]
  · intro hneg
    refine ⟨by simp only [QGrams.init]; rw [if_neg (by omega)], ?_⟩
    obtain ⟨-, -, -, -, -, h6⟩ := tokenize_spec (QGrams.initState q ss sk sc) s
    rw [h6]
    simp [QGrams.initState, stepTokens_of_short _ s q sk (Or.inr (by omega))]

theorem qval_nonpositive_behaviour_witness :
    ((-1 : Int) ≤ 0) ∧
      (((-1 : Int) = 0 → QGrams.init (-1) ['$', '#'] 0 Scaler.none =
          Except.error "Use WhitespaceTokenizer instead of qval=0.") ∧
        ((-1 : Int) < 0 → QGrams.init (-1) ['$', '#'] 0 Scaler.none =
            Except.ok (QGrams.initState (-1) ['$', '#'] 0 Scaler.none) ∧
          ((QGrams.initState (-1) ['$', '#'] 0 Scaler.none).tokenize
            "ab".data)._ordered_tokens = [])) :=
  ⟨by decide, qval_nonpositive_behaviour (-1) ['$', '#'] 0 Scaler.none "ab".data (by decide)⟩

/-- C5: comparing two empty strings does yield `a = b = c = 0`, but none
of the three formulas special-cases `a + b + c = 0`: `WeightedJaccard.sim`,
`KuhnsVIII.sim` and `QuantitativeJaccard.sim` all divide by zero
(`ZeroDivisionError`, here `Option.none`) on the pair `('', '')` instead
of returning the identity value 1.0. -/
theorem empty_pair_cards_zero_but_division_by_zero :
    intersection_card (defaultTokenMultiset "".data) (defaultTokenMultiset "".data) = 0 ∧
      src_only_card (defaultTokenMultiset "".data) (defaultTokenMultiset "".data) = 0 ∧
      tar_only_card (defaultTokenMultiset "".data) (defaultTokenMultiset "".data) = 0 ∧
      weightedJaccard_sim 3 "".data "".data = Option.none ∧
      kuhnsVIII_sim "".data "".data = Option.none ∧
      quantitativeJaccard_sim "".data "".data = Option.none := by
  have ha : intersection_card (defaultTokenMultiset "".data)
      (defaultTokenMultiset "".data) = 0 := by decide
  have hb : src_only_card (defaultTokenMultiset "".data)
      (defaultTokenMultiset "".data) = 0 := by decide
  have hc : tar_only_card (defaultTokenMultiset "".data)
      (defaultTokenMultiset "".data) = 0 := by decide
  have hn : population_card (defaultTokenMultiset "".data)
      (defaultTokenMultiset "".data) = 0 := by decide
  refine ⟨ha, hb, hc, ?_, ?_, ?_⟩
  · simp only [weightedJaccard_sim, ha, hb, hc]
    norm_num
  · simp only [kuhnsVIII_sim, hn]
    norm_num
  · have hprod : (∑ tok ∈ (defaultTokenMultiset "".data +
        defaultTokenMultiset "".data).toFinset,
        ((defaultTokenMultiset "".data).count tok : Int) *
          (defaultTokenMultiset "".data).count tok) = 0 := by decide
    simp only [quantitativeJaccard_sim, hprod]
    norm_num

/-- C6, counterexample: tokenizing `'abc'` and then `'ab'` on the same
default instance leaves `_string_ss` (the exposed padded string) at
`'$abc#'`, while a freshly constructed instance after `tokenize('ab')`
holds `'$ab#'` — the padded string is not part of the state that gets
overwritten. -/
theorem string_ss_not_overwritten :
    ((QGrams.mkDefault.tokenize "abc".data).tokenize "ab".data)._string_ss ≠
      (QGrams.mkDefault.tokenize "ab".data)._string_ss := by
  decide

/-- C6 (amended): for every configuration and every pair of strings,
calling `tokenize(s1)` then `tokenize(s2)` leaves the ordered token
sequence, the stored string, and the token counter exactly as a fresh
instance has them after `tokenize(s2)`; the one exception is the exposed
padded string `_string_ss`, which is only ever replaced by a longer padded
string and therefore can retain data from earlier calls. -/
theorem tokenize_overwrites_tokens_and_counter (st : QGrams) (s1 s2 : List Char) :
    ((st.tokenize s1).tokenize s2)._ordered_tokens = (st.tokenize s2)._ordered_tokens ∧
      ((st.tokenize s1).tokenize s2)._string = (st.tokenize s2)._string ∧
      ∀ tok, ((st.tokenize s1).tokenize s2).get_counter tok =
        (st.tokenize s2).get_counter tok := by
  obtain ⟨a1, a2, a3, a4, -, -⟩ := tokenize_spec st s1
  obtain ⟨-, -, -, b4, b5, b6⟩ := tokenize_spec (st.tokenize s1) s2
  obtain ⟨-, -, -, c4, c5, c6⟩ := tokenize_spec st s2
  have htok : ((st.tokenize s1).tokenize s2)._ordered_tokens =
      (st.tokenize s2)._ordered_tokens := by
    rw [b6, c6, a1, a2, a3]
  refine ⟨htok, b5.trans c5.symm, fun tok => ?_⟩
  unfold QGrams.get_counter QGrams.tokensMultiset
  rw [htok, b4, a4, c4]

/-- C7: `WeightedJaccard` with weight 1 under crisp intersection is plain
Jaccard similarity `a / (a + b + c)` for every pair of input strings
(including the degenerate pair, where both sides raise). -/
theorem weighted_jaccard_weight_one_is_jaccard (src tar : List Char) :
    weightedJaccard_sim 1 src tar = jaccard_sim src tar := by
  simp only [weightedJaccard_sim, jaccard_sim, one_mul]

/-- C8: mass conservation — for all multisets, the crisp intersection
cardinality plus the src-only cardinality is the total count of the src
multiset, and symmetrically for tar. -/
theorem mass_conservation (src tar : Multiset Tok) :
    intersection_card src tar + src_only_card src tar = Multiset.card src ∧
      intersection_card src tar + tar_only_card src tar = Multiset.card tar := by
  unfold intersection_card src_only_card tar_only_card
  constructor
  · rw [← Finset.sum_add_distrib,
      ← sum_count_eq_card src ((src + tar).toFinset)
        (by rw [Multiset.toFinset_add]; exact Finset.subset_union_left)]
    exact Finset.sum_congr rfl fun x _ => by omega
  · rw [← Finset.sum_add_distrib,
      ← sum_count_eq_card tar ((src + tar).toFinset)
        (by rw [Multiset.toFinset_add]; exact Finset.subset_union_right)]
    exact Finset.sum_congr rfl fun x _ => by omega

/-- C9: `GeneralizedFleiss().sim` with all defaults (`marginals='a'`,
arithmetic mean, crisp intersection) is not symmetric: the default branch
builds the marginal products `(a+b)·(c+d)` and `(a+c)·(c+d)`, which is not
invariant under swapping `b` and `c`, and on the pair `('ab', 'abc')` the
two orders give −2/7 and −4/7. -/
theorem generalized_fleiss_default_asymmetric :
    ∃ src tar : List Char,
      generalizedFleissDefault_sim src tar ≠ generalizedFleissDefault_sim tar src := by
  refine ⟨"ab".data, "abc".data, ?_⟩
  have hA := defaultTokenMultiset "ab".data
  have ha : intersection_card (defaultTokenMultiset "ab".data)
      (defaultTokenMultiset "abc".data) = 2 := by decide
  have hb : src_only_card (defaultTokenMultiset "ab".data)
      (defaultTokenMultiset "abc".data) = 1 := by decide
  have hc : tar_only_card (defaultTokenMultiset "ab".data)
      (defaultTokenMultiset "abc".data) = 2 := by decide
  have hn : population_card (defaultTokenMultiset "ab".data)
      (defaultTokenMultiset "abc".data) = 5 := by decide
  have ha2 : intersection_card (defaultTokenMultiset "abc".data)
      (defaultTokenMultiset "ab".data) = 2 := by decide
  have hb2 : src_only_card (defaultTokenMultiset "abc".data)
      (defaultTokenMultiset "ab".data) = 2 := by decide
  have hc2 : tar_only_card (defaultTokenMultiset "abc".data)
      (defaultTokenMultiset "ab".data) = 1 := by decide
  have hn2 : population_card (defaultTokenMultiset "abc".data)
      (defaultTokenMultiset "ab".data) = 5 := by decide
  simp only [generalizedFleissDefault_sim, generalizedFleiss_sim, total_complement_card,
    amean, ha, hb, hc, hn, ha2, hb2, hc2, hn2,
    if_neg (by decide : ¬ ("a".data = "b".data)),
    if_neg (by decide : ¬ ("a".data = "c".data))]
  norm_num [List.sum_cons]

/-- C10: for every string whose tokenization under the default tokenizer
is non-empty, `QuantitativeJaccard().sim(s, s)` returns exactly 1. -/
theorem quantitative_jaccard_self_sim_one (s : List Char)
    (h : defaultTokenMultiset s ≠ 0) :
    quantitativeJaccard_sim s s = Option.some 1 := by
  simp only [quantitativeJaccard_sim]
  obtain ⟨a, ha⟩ := Multiset.exists_mem_of_ne_zero h
  have haf : a ∈ (defaultTokenMultiset s + defaultTokenMultiset s).toFinset := by
    rw [Multiset.toFinset_add, Finset.mem_union]
    exact Or.inl (Multiset.mem_toFinset.mpr ha)
  have hcount : 1 ≤ ((defaultTokenMultiset s).count a : Int) := by
    exact_mod_cast Multiset.count_pos.mpr ha
  have hpos : 0 < ∑ tok ∈ (defaultTokenMultiset s + defaultTokenMultiset s).toFinset,
      ((defaultTokenMultiset s).count tok : Int) * (defaultTokenMultiset s).count tok := by
    have hle := Finset.single_le_sum
      (f := fun tok => ((defaultTokenMultiset s).count tok : Int) *
        (defaultTokenMultiset s).count tok)
      (fun i _ => mul_self_nonneg _) haf
    have hle2 : ((defaultTokenMultiset s).count a : Int) *
        (defaultTokenMultiset s).count a ≤
        ∑ tok ∈ (defaultTokenMultiset s + defaultTokenMultiset s).toFinset,
          ((defaultTokenMultiset s).count tok : Int) *
            (defaultTokenMultiset s).count tok := by simpa using hle
    nlinarith
  rw [add_sub_cancel_right, if_neg hpos.ne.symm,
    div_self (by exact_mod_cast hpos.ne.symm)]

theorem quantitative_jaccard_self_sim_one_witness :
    defaultTokenMultiset "ab".data ≠ 0 ∧
      quantitativeJaccard_sim "ab".data "ab".data = Option.some 1 :=
  ⟨by decide, quantitative_jaccard_self_sim_one "ab".data (by decide)⟩

end Abydos
